import Mathlib

/-
Verification development for the Groove Rider audio-to-vinyl pipeline.

Shallow embedding conventions:
  * Python/numpy floating-point arithmetic is idealized as exact rational
    arithmetic over ℚ.
  * Spiral angles are measured in turns (theta divided by 2·pi), so that
    numpy.linspace over angles becomes an exact rational linspace; order
    and monotonicity statements are unaffected because 2·pi > 0.
  * A Python float division is modelled by safeDiv, which fails (none)
    on a zero divisor: NumPy emits inf/NaN and plain Python raises
    ZeroDivisionError there, and neither outcome is a normal sample value.
  * Fallible operations return Option.
-/

/-- Python integer truncation toward zero, as applied by int(x) to a float. -/
def pyInt (q : ℚ) : ℤ := if 0 ≤ q then ⌊q⌋ else -⌊-q⌋

/-- Value at index i of numpy.linspace a b n (with the endpoint included,
the default): for n ≥ 2 it is a + (b - a) · i / (n - 1); numpy.linspace
with n = 1 is the singleton [a] and with n = 0 the empty array, so indices
are only ever consulted for i < n. -/
def linAt (a b : ℚ) (n : ℕ) (i : ℕ) : ℚ :=
  if n ≤ 1 then a else a + (b - a) * (i : ℚ) / ((n : ℚ) - 1)

/-- Maximum absolute value of a sample buffer, numpy.max(numpy.abs(x));
the empty buffer is given the junk value 0 (numpy.max raises on an empty
array, and every call site below guards or assumes nonemptiness). -/
def maxAbs (l : List ℚ) : ℚ := l.foldr (fun x m => max |x| m) 0

/-- Final peak-normalization stage shared by audio_processing.process_audio
(step 6 there) and validation.extract_audio_from_stl: divide by the global
maximum absolute value when it is positive, otherwise leave the buffer
unchanged. -/
def peak_normalize (l : List ℚ) : List ℚ :=
  if 0 < maxAbs l then l.map (fun x => x / maxAbs l) else l

/-- Division as performed by the Python sources: a zero divisor is a
failure (ZeroDivisionError for plain floats, inf/NaN for NumPy scalars),
not the value 0 that Lean's total division would give. -/
def safeDiv (a b : ℚ) : Option ℚ := if b = 0 then none else some (a / b)

/-- The numpy.sign function on scalars. -/
def pySign (q : ℚ) : ℚ := if 0 < q then 1 else if q < 0 then -1 else 0

/-- One sample through the dynamic-range compressor of
audio_processing.process_audio step 5: samples with absolute value
strictly above the linear threshold are mapped to
sign(s) · (threshold + (|s| - threshold) / ratio); all others pass
unchanged. -/
def compressSample (t ratio s : ℚ) : ℚ :=
  if t < |s| then pySign s * (t + (|s| - t) / ratio) else s

/-- The compressor stage applied to a whole buffer (the masked in-place
assignment in process_audio is a pointwise update). -/
def compressor_stage (t ratio : ℚ) (samples : List ℚ) : List ℚ :=
  samples.map (compressSample t ratio)

/-- Configuration consumed by geometry_generator.create_record_geometry:
the [record] table fields plus the [audio] amplitude_scale. The source
reads lead_in_width and lead_out_width with .get defaults of 5 and
amplitude_scale with a .get default of 1.0; here they are plain fields. -/
structure RecordCfg where
  diameter : ℚ
  thickness : ℚ
  hole_diameter : ℚ
  groove_width : ℚ
  groove_depth : ℚ
  lead_in_width : ℚ
  lead_out_width : ℚ
  amplitude_scale : ℚ
deriving DecidableEq

/-- record_radius = diameter / 2. -/
def record_radius (c : RecordCfg) : ℚ := c.diameter / 2

/-- hole_radius = hole_diameter / 2. -/
def hole_radius (c : RecordCfg) : ℚ := c.hole_diameter / 2

/-- outer_radius = record_radius - lead_in_width. -/
def outer_radius (c : RecordCfg) : ℚ := record_radius c - c.lead_in_width

/-- inner_radius = hole_radius + lead_out_width. -/
def inner_radius (c : RecordCfg) : ℚ := hole_radius c + c.lead_out_width

/-- track_width = outer_radius - inner_radius. -/
def track_width (c : RecordCfg) : ℚ := outer_radius c - inner_radius c

/-- num_rotations = int(track_width / groove_width): the generator derives
the spiral rotation count from the disc geometry alone. -/
def num_rotations (c : RecordCfg) : ℤ := pyInt (track_width c / c.groove_width)

/-- Element i of the generator's theta array, measured in turns:
numpy.linspace(0, 2·pi·num_rotations, n) divided by 2·pi. -/
def spiral_theta_turns (c : RecordCfg) (n : ℕ) (i : ℕ) : ℚ :=
  linAt 0 ((num_rotations c : ℚ)) n i

/-- Element i of the generator's radius array:
numpy.linspace(outer_radius, inner_radius, n). -/
def spiral_r (c : RecordCfg) (n : ℕ) (i : ℕ) : ℚ :=
  linAt (outer_radius c) (inner_radius c) n i

/-- z_modulation = sample · groove_depth · amplitude_scale. -/
def z_modulation (c : RecordCfg) (s : ℚ) : ℚ :=
  s * c.groove_depth * c.amplitude_scale

/-- z_center = thickness / 2 - groove_depth / 2 - z_modulation. -/
def z_center (c : RecordCfg) (s : ℚ) : ℚ :=
  c.thickness / 2 - c.groove_depth / 2 - z_modulation c s

/-- Groove height relative to the disc's top surface (which sits at
thickness / 2): z_center - thickness / 2 = -groove_depth / 2 - z_modulation. -/
def z_rel_top (c : RecordCfg) (s : ℚ) : ℚ := z_center c s - c.thickness / 2

/-- Configuration consumed by validation.extract_audio_from_stl: the
[record_dimensions] and [groove_geometry] tables. -/
structure ExtractCfg where
  record_diameter_mm : ℚ
  lead_in_groove_mm : ℚ
  center_hole_diameter_mm : ℚ
  groove_pitch_mm : ℚ
  groove_depth_mm : ℚ
  amplitude_scale : ℚ
deriving DecidableEq

/-- r_start = record_diameter_mm / 2 - lead_in_groove_mm. -/
def r_start (e : ExtractCfg) : ℚ := e.record_diameter_mm / 2 - e.lead_in_groove_mm

/-- r_end = center_hole_diameter_mm / 2 + 2.0 (the 2 mm inner clearance is
hard-coded in the extractor). -/
def r_end (e : ExtractCfg) : ℚ := e.center_hole_diameter_mm / 2 + 2

/-- The extractor's hole radius, center_hole_diameter_mm / 2. -/
def hole_radius_e (e : ExtractCfg) : ℚ := e.center_hole_diameter_mm / 2

/-- total_rotations = (r_start - r_end) / groove_pitch_mm: the extractor
derives a fractional rotation count, with no truncation. -/
def total_rotations (e : ExtractCfg) : ℚ := (r_start e - r_end e) / e.groove_pitch_mm

/-- seconds_per_rotation = 60.0 / rpm. -/
def seconds_per_rotation (rpm : ℚ) : ℚ := 60 / rpm

/-- total_duration_seconds = total_rotations · seconds_per_rotation. -/
def total_duration (e : ExtractCfg) (rpm : ℚ) : ℚ :=
  total_rotations e * seconds_per_rotation rpm

/-- num_points = int(total_duration_seconds · 22050), the extractor's own
proxy sample count. -/
def num_points (e : ExtractCfg) (rpm : ℚ) : ℤ := pyInt (total_duration e rpm * 22050)

/-- Element i of the extractor's theta array, measured in turns:
numpy.linspace(0, total_rotations · 2·pi, num_points) divided by 2·pi. -/
def ext_theta_turns (e : ExtractCfg) (rpm : ℚ) (i : ℕ) : ℚ :=
  linAt 0 (total_rotations e) (num_points e rpm).toNat i

/-- Element i of the extractor's radius array:
numpy.linspace(r_start, r_end, num_points). -/
def ext_r (e : ExtractCfg) (rpm : ℚ) (i : ℕ) : ℚ :=
  linAt (r_start e) (r_end e) (num_points e rpm).toNat i

/-- base_depth = -groove_depth_mm. -/
def base_depth (e : ExtractCfg) : ℚ := -e.groove_depth_mm

/-- The depth-to-amplitude modulation range, amplitude_scale · groove_depth_mm,
the divisor of the extractor's depth-to-amplitude inversion. -/
def modulation_range (e : ExtractCfg) : ℚ := e.amplitude_scale * e.groove_depth_mm

/-- One stylus reading inverted to an amplitude: a reading of none models
an empty cylinder query (the source substitutes base_depth, yielding a zero
numerator); some z is the lowest vertex height found. The division
(z - base_depth) / (amplitude_scale · groove_depth_mm) is performed with no
guard in the source, so a zero modulation range is a division failure. -/
def amplitudeOf (e : ExtractCfg) (reading : Option ℚ) : Option ℚ :=
  safeDiv (reading.getD (base_depth e) - base_depth e) (modulation_range e)

/-- The extraction loop of validation.extract_audio_from_stl: every stylus
reading is inverted to an amplitude, and the whole run fails if any single
inversion fails (an exception or NaN in the source). -/
def amplitudes (e : ExtractCfg) : List (Option ℚ) → Option (List ℚ)
  | [] => some []
  | reading :: rest =>
    match amplitudeOf e reading, amplitudes e rest with
    | some a, some as => some (a :: as)
    | _, _ => none

/-- The extraction loop and final normalization of
validation.extract_audio_from_stl, as a function of the per-point stylus
readings (the lowest z found by each KDTree cylinder query along the
decimated ideal spiral, or none where the query came back empty). An empty
reading list fails because numpy.max raises on an empty array; a zero
modulation range fails through amplitudeOf. -/
def extract_audio_from_stl (e : ExtractCfg) (readings : List (Option ℚ)) :
    Option (List ℚ) :=
  if readings.isEmpty then none
  else (amplitudes e readings).map peak_normalize

/-- Outcome of validation.compare_audio_signals, abstracting the score of
the non-degenerate branch: the Pearson correlation there is irrational in
general (it involves square roots) and no claim concerns its value. The
correlated constructor records the common length after resampling and
whether the extracted (true) or the original (false) signal was resampled. -/
inductive CompareOutcome
  | degenerate : ℚ → CompareOutcome
  | correlated : ℕ → Bool → CompareOutcome
deriving DecidableEq

/-- Branch structure of validation.compare_audio_signals: an empty input on
either side short-circuits to a 0.0 score before any resampling; otherwise
the shorter signal is resampled to the longer length and correlated. -/
def compare_audio_signals (original extracted : List ℚ) : CompareOutcome :=
  if extracted.length = 0 ∨ original.length = 0 then CompareOutcome.degenerate 0
  else if extracted.length < original.length then
    CompareOutcome.correlated original.length true
  else CompareOutcome.correlated extracted.length false

/-- A groove centerline point in cylindrical form: radius, angle measured
in turns (theta / (2·pi)), and height z. Its Cartesian position is
(r·cos(2·pi·t), r·sin(2·pi·t), z), a fixed injection applied uniformly, so
mesh equality statements over this form transfer to the numpy mesh. -/
structure CylPoint where
  r : ℚ
  turns : ℚ
  z : ℚ
deriving DecidableEq

/-- Whether q is an integer, i.e. has denominator 1. -/
def isIntQ (q : ℚ) : Bool := q.den == 1

/-- Whether two cylindrical points project to the same planar (x, y)
position: both at the origin, or equal radii with angles differing by a
whole number of turns, or opposite radii with angles differing by a whole
number of turns plus a half turn. This is the generator's norm == 0 skip
test on the planar segment direction, phrased in polar coordinates. -/
def sameXY (p q : CylPoint) : Bool :=
  (p.r == 0 && q.r == 0) ||
  (p.r == q.r && isIntQ (p.turns - q.turns)) ||
  (p.r == -q.r && isIntQ (p.turns - q.turns - 1/2))

/-- A vertex of the generated mesh, carrying exactly the rational data from
which its Cartesian coordinates are a fixed real-valued function: ring is a
disc vertex at radius r, angle turns, height z; corner is one of the four
groove-quad vertices built from the two consecutive centerline points p and
q, offset by halfWidth along the unit perpendicular of the planar segment
direction (side selects the minus/plus offset of the source's v1/v2 versus
v3/v4, atSecond selects which centerline point the corner sits on). -/
inductive PreVert
  | ring : ℚ → ℚ → ℚ → PreVert
  | corner : CylPoint → CylPoint → ℚ → Bool → Bool → PreVert
deriving DecidableEq

/-- The 800 base-disc vertices of create_record_geometry: 200 outer-ring
angles (numpy.linspace(0, 2·pi, 200, endpoint=False), i.e. turns i/200),
each contributing a top and a bottom vertex, then the same for the hole
ring. -/
def discVertices (c : RecordCfg) : List PreVert :=
  ((List.range 200).flatMap (fun i =>
    [PreVert.ring (record_radius c) ((i : ℚ) / 200) (c.thickness / 2),
     PreVert.ring (record_radius c) ((i : ℚ) / 200) (-(c.thickness / 2))])) ++
  ((List.range 200).flatMap (fun i =>
    [PreVert.ring (hole_radius c) ((i : ℚ) / 200) (c.thickness / 2),
     PreVert.ring (hole_radius c) ((i : ℚ) / 200) (-(c.thickness / 2))]))

/-- The base-disc faces of create_record_geometry: for each of the 200
sides, two outer-wall, two inner-wall, two top-surface and two
bottom-surface triangles, with the exact vertex indices of the source. -/
def discFaces : List (ℕ × ℕ × ℕ) :=
  (List.range 200).flatMap (fun i =>
    let ni := (i + 1) % 200
    let off := 400
    [(i * 2, ni * 2, i * 2 + 1),
     (ni * 2, ni * 2 + 1, i * 2 + 1),
     (off + i * 2, off + i * 2 + 1, off + ni * 2),
     (off + ni * 2, off + i * 2 + 1, off + ni * 2 + 1),
     (i * 2, off + i * 2, off + ni * 2),
     (i * 2, off + ni * 2, ni * 2),
     (i * 2 + 1, off + ni * 2 + 1, off + i * 2 + 1),
     (i * 2 + 1, ni * 2 + 1, off + ni * 2 + 1)])

/-- Spiral groove centerline point i for a given sample buffer: radius and
angle from the two linspaces, height z_center of sample i. -/
def spiralPoint (samples : List ℚ) (c : RecordCfg) (i : ℕ) : CylPoint :=
  { r := spiral_r c samples.length i,
    turns := spiral_theta_turns c samples.length i,
    z := z_center c (samples.getD i 0) }

/-- One iteration of the groove loop: consecutive centerline points with
coinciding planar positions are skipped (the norm == 0 continue); otherwise
four corner vertices are appended at the current end of the vertex list and
two faces referencing them are added. -/
def grooveStep (c : RecordCfg) (p q : CylPoint)
    (acc : List PreVert × List (ℕ × ℕ × ℕ)) :
    List PreVert × List (ℕ × ℕ × ℕ) :=
  if sameXY p q then acc
  else
    let idx := acc.1.length
    (acc.1 ++
      [PreVert.corner p q (c.groove_width / 2) false false,
       PreVert.corner p q (c.groove_width / 2) true false,
       PreVert.corner p q (c.groove_width / 2) false true,
       PreVert.corner p q (c.groove_width / 2) true true],
     acc.2 ++ [(idx, idx + 2, idx + 1), (idx + 1, idx + 2, idx + 3)])

/-- The combined vertex and face lists produced by
geometry_generator.create_record_geometry, in the polar form described at
PreVert. -/
structure PreMesh where
  vertices : List PreVert
  faces : List (ℕ × ℕ × ℕ)
deriving DecidableEq

/-- geometry_generator.create_record_geometry: base disc vertices and
faces, then the spiral groove quads appended by folding the groove loop
over the consecutive centerline pairs (k, k+1) for k below
len(samples) - 1. Its only inputs are the sample buffer and the
configuration. -/
def create_record_geometry (samples : List ℚ) (c : RecordCfg) : PreMesh :=
  let result := (List.range (samples.length - 1)).foldl
    (fun acc k =>
      grooveStep c (spiralPoint samples c k) (spiralPoint samples c (k + 1)) acc)
    (discVertices c, discFaces)
  { vertices := result.1, faces := result.2 }

/-- The mesh-generation entry point as invoked by the application shell:
app.py and the test suite call it with the samples, the sample rate, the
playback RPM and the configuration, but the geometry builder in
src/geometry_generator.py accepts only the samples and the configuration,
so the playback parameters are discarded. -/
def create_record_mesh (samples : List ℚ) (sample_rate rpm : ℚ)
    (c : RecordCfg) : PreMesh :=
  create_record_geometry samples c

/-- Validity of a generator configuration, after the spec's RecordProfile
invariant: positive groove width, nonnegative margins and depth, and a
playable track (inner radius at most outer radius). -/
def ValidRecordCfg (c : RecordCfg) : Prop :=
  0 < c.groove_width ∧ 0 ≤ c.lead_in_width ∧ 0 ≤ c.lead_out_width ∧
  0 ≤ c.groove_depth ∧ inner_radius c ≤ outer_radius c

/-- Validity of an extractor configuration, after the spec's RecordProfile
invariant: positive pitch, nonnegative depth, end radius at most start
radius. -/
def ValidExtractCfg (e : ExtractCfg) : Prop :=
  0 < e.groove_pitch_mm ∧ 0 ≤ e.groove_depth_mm ∧ r_end e ≤ r_start e

/-- A representative physical profile for the generator: 100 mm diameter,
2 mm thickness, 10 mm hole, 1 mm groove width, 0.5 mm groove depth, 5 mm
lead-in and lead-out, amplitude scale 1 (the source's default). -/
def cCut : RecordCfg :=
  { diameter := 100, thickness := 2, hole_diameter := 10, groove_width := 1,
    groove_depth := 1/2, lead_in_width := 5, lead_out_width := 5,
    amplitude_scale := 1 }

/-- The same physical profile expressed in the extractor's schema: 100 mm
diameter, 5 mm lead-in, 10 mm hole, 1 mm pitch, 0.5 mm depth, amplitude
scale 1. -/
def eRead : ExtractCfg :=
  { record_diameter_mm := 100, lead_in_groove_mm := 5,
    center_hole_diameter_mm := 10, groove_pitch_mm := 1,
    groove_depth_mm := 1/2, amplitude_scale := 1 }

/-- The extractor configuration with a zero modulation range:
amplitude_scale 0, so amplitude_scale · groove_depth_mm = 0. -/
def eZeroRange : ExtractCfg :=
  { record_diameter_mm := 100, lead_in_groove_mm := 5,
    center_hole_diameter_mm := 10, groove_pitch_mm := 1,
    groove_depth_mm := 1/2, amplitude_scale := 0 }

/-- The representative profile at the default amplitude scale 1.0, at which
the depth mapping breaks the surface. -/
def cBreach : RecordCfg :=
  { diameter := 100, thickness := 2, hole_diameter := 10, groove_width := 1,
    groove_depth := 1/2, lead_in_width := 5, lead_out_width := 5,
    amplitude_scale := 1 }

/-- A configuration with amplitude scale 1/4, inside the amended bound. -/
def cSafe : RecordCfg :=
  { diameter := 100, thickness := 2, hole_diameter := 10, groove_width := 1,
    groove_depth := 1/2, lead_in_width := 5, lead_out_width := 5,
    amplitude_scale := 1/4 }

/-- An extractor configuration with modulation range 1: groove depth 1 mm,
amplitude scale 1, so base depth -1 and range 1. -/
def eUnit : ExtractCfg :=
  { record_diameter_mm := 100, lead_in_groove_mm := 5,
    center_hole_diameter_mm := 10, groove_pitch_mm := 1,
    groove_depth_mm := 1, amplitude_scale := 1 }

/-- Truncation toward zero of a nonnegative rational is nonnegative. -/
lemma pyInt_nonneg {q : ℚ} (h : 0 ≤ q) : 0 ≤ pyInt q := by
  unfold pyInt
  rw [if_pos h]
  exact Int.floor_nonneg.mpr h

/-- Truncation toward zero never exceeds a nonnegative argument. -/
lemma pyInt_le_self {q : ℚ} (h : 0 ≤ q) : (pyInt q : ℚ) ≤ q := by
  unfold pyInt
  rw [if_pos h]
  exact Int.floor_le q

/-- An ascending linspace is non-decreasing in the index. -/
lemma linAt_mono {a b : ℚ} (hab : a ≤ b) (n : ℕ) {i j : ℕ} (hij : i ≤ j) :
    linAt a b n i ≤ linAt a b n j := by
  unfold linAt
  by_cases h : n ≤ 1
  · simp only [if_pos h, le_refl]
  · simp only [if_neg h]
    have hd : (0 : ℚ) < (n : ℚ) - 1 := by
      have h2 : (2 : ℕ) ≤ n := by omega
      have h2q : (2 : ℚ) ≤ (n : ℚ) := by exact_mod_cast h2
      linarith
    have hij' : (i : ℚ) ≤ (j : ℚ) := by exact_mod_cast hij
    have hm : (b - a) * (i : ℚ) ≤ (b - a) * (j : ℚ) :=
      mul_le_mul_of_nonneg_left hij' (by linarith)
    have := (div_le_div_iff_of_pos_right hd).mpr hm
    linarith

/-- A descending linspace is non-increasing in the index. -/
lemma linAt_anti {a b : ℚ} (hba : b ≤ a) (n : ℕ) {i j : ℕ} (hij : i ≤ j) :
    linAt a b n j ≤ linAt a b n i := by
  unfold linAt
  by_cases h : n ≤ 1
  · simp only [if_pos h, le_refl]
  · simp only [if_neg h]
    have hd : (0 : ℚ) < (n : ℚ) - 1 := by
      have h2 : (2 : ℕ) ≤ n := by omega
      have h2q : (2 : ℚ) ≤ (n : ℚ) := by exact_mod_cast h2
      linarith
    have hij' : (i : ℚ) ≤ (j : ℚ) := by exact_mod_cast hij
    have hm : (b - a) * (j : ℚ) ≤ (b - a) * (i : ℚ) :=
      mul_le_mul_of_nonpos_left hij' (by linarith)
    have := (div_le_div_iff_of_pos_right hd).mpr hm
    linarith

/-- In a descending linspace every in-range element stays at or above the
final value b. -/
lemma linAt_desc_lower {a b : ℚ} (hba : b ≤ a) {n i : ℕ} (hin : i < n) :
    b ≤ linAt a b n i := by
  unfold linAt
  by_cases h : n ≤ 1
  · rw [if_pos h]; exact hba
  · rw [if_neg h]
    have hd : (0 : ℚ) < (n : ℚ) - 1 := by
      have h2 : (2 : ℕ) ≤ n := by omega
      have h2q : (2 : ℚ) ≤ (n : ℚ) := by exact_mod_cast h2
      linarith
    have hi' : (i : ℚ) ≤ (n : ℚ) - 1 := by
      have : (i : ℕ) + 1 ≤ n := hin
      have : ((i : ℕ) : ℚ) + 1 ≤ (n : ℚ) := by exact_mod_cast this
      linarith
    have hm : (b - a) * ((n : ℚ) - 1) ≤ (b - a) * (i : ℚ) :=
      mul_le_mul_of_nonpos_left hi' (by linarith)
    have hq := (div_le_div_iff_of_pos_right hd).mpr hm
    rw [mul_div_cancel_right₀ _ (ne_of_gt hd)] at hq
    linarith

/-- In a descending linspace every element stays at or below the initial
value a. -/
lemma linAt_desc_upper {a b : ℚ} (hba : b ≤ a) (n i : ℕ) :
    linAt a b n i ≤ a := by
  unfold linAt
  by_cases h : n ≤ 1
  · rw [if_pos h]
  · rw [if_neg h]
    have hd : (0 : ℚ) < (n : ℚ) - 1 := by
      have h2 : (2 : ℕ) ≤ n := by omega
      have h2q : (2 : ℚ) ≤ (n : ℚ) := by exact_mod_cast h2
      linarith
    have hm : (b - a) * (i : ℚ) ≤ 0 :=
      mul_nonpos_of_nonpos_of_nonneg (by linarith) (by positivity)
    have := div_nonpos_of_nonpos_of_nonneg hm (le_of_lt hd)
    linarith

/-- The running maximum of absolute values is nonnegative. -/
lemma maxAbs_nonneg (l : List ℚ) : 0 ≤ maxAbs l := by
  induction l with
  | nil => exact le_refl 0
  | cons x xs ih =>
    unfold maxAbs at ih ⊢
    simp only [List.foldr_cons]
    exact le_trans ih (le_max_right _ _)

/-- Every buffer element is bounded in absolute value by maxAbs. -/
lemma le_maxAbs_of_mem {l : List ℚ} {x : ℚ} (hx : x ∈ l) : |x| ≤ maxAbs l := by
  induction l with
  | nil => cases hx
  | cons y ys ih =>
    unfold maxAbs at ih ⊢
    simp only [List.foldr_cons]
    rcases List.mem_cons.mp hx with h | h
    · subst h; exact le_max_left _ _
    · exact le_trans (ih h) (le_max_right _ _)

/-- A buffer of zeros has maxAbs zero. -/
lemma maxAbs_all_zero {l : List ℚ} (h : ∀ x ∈ l, x = 0) : maxAbs l = 0 := by
  induction l with
  | nil => rfl
  | cons y ys ih =>
    unfold maxAbs at ih ⊢
    simp only [List.foldr_cons]
    rw [h y (List.mem_cons_self y ys), ih (fun x hx => h x (List.mem_cons_of_mem y hx))]
    simp

/-- Dividing max of two rationals by a positive constant commutes with max. -/
lemma max_div_pos (x y m : ℚ) (hm : 0 < m) : max (x / m) (y / m) = max x y / m := by
  rcases le_total x y with h | h
  · rw [max_eq_right h, max_eq_right ((div_le_div_iff_of_pos_right hm).mpr h)]
  · rw [max_eq_left h, max_eq_left ((div_le_div_iff_of_pos_right hm).mpr h)]

/-- Dividing a buffer pointwise by a positive constant divides its maxAbs. -/
lemma maxAbs_map_div (l : List ℚ) (m : ℚ) (hm : 0 < m) :
    maxAbs (l.map (fun x => x / m)) = maxAbs l / m := by
  induction l with
  | nil =>
    unfold maxAbs
    simp
  | cons y ys ih =>
    unfold maxAbs at ih ⊢
    simp only [List.map_cons, List.foldr_cons]
    rw [ih, abs_div, abs_of_pos hm, max_div_pos]
    exact hm

/-- After normalization of a buffer with positive peak, the peak is 1. -/
lemma maxAbs_normalize_of_pos {l : List ℚ} (hm : 0 < maxAbs l) :
    maxAbs (peak_normalize l) = 1 := by
  unfold peak_normalize
  rw [if_pos hm, maxAbs_map_div _ _ hm, div_self (ne_of_gt hm)]

/-- Normalization leaves a buffer of zeros unchanged. -/
lemma peak_normalize_all_zero {l : List ℚ} (h : ∀ x ∈ l, x = 0) :
    peak_normalize l = l := by
  unfold peak_normalize
  rw [maxAbs_all_zero h]
  simp

/-- The peak after normalization is 0 or 1. -/
lemma maxAbs_normalize_dichotomy (l : List ℚ) :
    maxAbs (peak_normalize l) = 0 ∨ maxAbs (peak_normalize l) = 1 := by
  by_cases hm : 0 < maxAbs l
  · exact Or.inr (maxAbs_normalize_of_pos hm)
  · left
    have h0 : maxAbs l = 0 := le_antisymm (le_of_not_lt hm) (maxAbs_nonneg l)
    unfold peak_normalize
    rw [if_neg hm]
    exact h0

/-- Every sample of a normalized buffer has absolute value at most 1. -/
lemma peak_normalize_abs_le_one (l : List ℚ) :
    ∀ x ∈ peak_normalize l, |x| ≤ 1 := by
  intro x hx
  unfold peak_normalize at hx
  by_cases hm : 0 < maxAbs l
  · rw [if_pos hm] at hx
    obtain ⟨a, ha, rfl⟩ := List.mem_map.mp hx
    rw [abs_div, abs_of_pos hm]
    exact (div_le_one hm).mpr (le_maxAbs_of_mem ha)
  · rw [if_neg hm] at hx
    have h1 : |x| ≤ maxAbs l := le_maxAbs_of_mem hx
    have h2 : maxAbs l ≤ 0 := le_of_not_lt hm
    linarith [abs_nonneg x]

/-- A buffer whose peak is already 1 is left unchanged by normalization. -/
lemma peak_normalize_of_peak_one {l : List ℚ} (h : maxAbs l = 1) :
    peak_normalize l = l := by
  unfold peak_normalize
  rw [h, if_pos one_pos]
  simp

/-- Normalization is idempotent. -/
lemma peak_normalize_idem (l : List ℚ) :
    peak_normalize (peak_normalize l) = peak_normalize l := by
  by_cases hm : 0 < maxAbs l
  · exact peak_normalize_of_peak_one (maxAbs_normalize_of_pos hm)
  · have h : peak_normalize l = l := by
      unfold peak_normalize
      rw [if_neg hm]
    rw [h, h]

/-- The sign of a product of a sign with a positive factor. -/
lemma pySign_mul_pos (s c : ℚ) (hc : 0 < c) : pySign (pySign s * c) = pySign s := by
  unfold pySign
  by_cases h1 : 0 < s
  · rw [if_pos h1, one_mul, if_pos hc]
  · rw [if_neg h1]
    by_cases h2 : s < 0
    · rw [if_pos h2, neg_one_mul]
      rw [if_neg (by linarith), if_pos (by linarith)]
    · rw [if_neg h2, zero_mul]
      rw [if_neg (lt_irrefl 0), if_neg (lt_irrefl 0)]

/-- C1: the claim asserts that the mesh synthesizer's spiral and the
extractor's recomputed spiral are bit-identical from the same profile. On
the code they are not: for the same physical profile the generator cuts
int(track_width / groove_width) = int((45 - 10) / 1) = 35 rotations, ending
at inner_radius = hole_radius + lead_out = 10 mm, while the extractor
searches along (r_start - r_end) / pitch = (45 - 7) / 1 = 38 rotations
(no truncation, hard-coded 2 mm inner clearance), ending at r_end = 7 mm;
so the total rotation counts differ and the theta and r sequences cannot
coincide. The spec (and the repository's own round-trip validation) make
the identity the clear intent, so this is a code bug. -/
theorem spiral_paths_differ :
    (num_rotations cCut : ℚ) = 35 ∧ total_rotations eRead = 38 ∧
    (num_rotations cCut : ℚ) ≠ total_rotations eRead ∧
    inner_radius cCut = 10 ∧ r_end eRead = 7 ∧
    inner_radius cCut ≠ r_end eRead := by
  norm_num [cCut, eRead, num_rotations, pyInt, track_width, outer_radius,
    inner_radius, record_radius, hole_radius, total_rotations, r_start, r_end]

/-- C2 counterexample: for a 1-second waveform (44100 samples at 44100 Hz)
at 45 RPM the claimed rotation count waveformDuration / (60 / RPM) is 3/4,
but the generator's rotation count is int(track_width / groove_width) = 35;
the duration and the RPM are not inputs of the geometry at all. -/
theorem rotation_count_not_duration_based :
    (num_rotations cCut : ℚ) = 35 ∧
    (44100 : ℚ) / 44100 / seconds_per_rotation 45 = 3/4 ∧
    (num_rotations cCut : ℚ) ≠ (44100 : ℚ) / 44100 / seconds_per_rotation 45 := by
  norm_num [cCut, num_rotations, pyInt, track_width, outer_radius,
    inner_radius, record_radius, hole_radius, seconds_per_rotation]

/-- C2 amended: the generator derives the rotation count as
int(track_width / groove_width) from the disc geometry alone, and no
insufficient-track-width error exists; instead the radius floor holds by
construction (a silent clamp): for every sample count the radius stays
within [inner_radius, outer_radius], and the cut spiral's radial span
num_rotations · groove_width fits inside the track width. -/
theorem rotation_count_and_radius_clamp (c : RecordCfg)
    (hgw : 0 < c.groove_width) (hio : inner_radius c ≤ outer_radius c) :
    (num_rotations c : ℚ) * c.groove_width ≤ track_width c ∧
    ∀ n i : ℕ, i < n →
      inner_radius c ≤ spiral_r c n i ∧ spiral_r c n i ≤ outer_radius c := by
  constructor
  · have htw : 0 ≤ track_width c := by unfold track_width; linarith
    have hq : 0 ≤ track_width c / c.groove_width := div_nonneg htw hgw.le
    have hfl : (num_rotations c : ℚ) ≤ track_width c / c.groove_width :=
      pyInt_le_self hq
    calc (num_rotations c : ℚ) * c.groove_width
        ≤ track_width c / c.groove_width * c.groove_width :=
          mul_le_mul_of_nonneg_right hfl hgw.le
      _ = track_width c := div_mul_cancel₀ _ (ne_of_gt hgw)
  · intro n i hin
    unfold spiral_r
    exact ⟨linAt_desc_lower hio hin, linAt_desc_upper hio n i⟩

/-- Witness for the amended C2 at the representative profile and sample
index 2 of 4. -/
theorem rotation_clamp_witness :
    ((num_rotations cCut : ℚ) * cCut.groove_width ≤ track_width cCut) ∧
    (inner_radius cCut ≤ spiral_r cCut 4 2 ∧ spiral_r cCut 4 2 ≤ outer_radius cCut) :=
  ⟨(rotation_count_and_radius_clamp cCut
      (by norm_num [cCut])
      (by norm_num [cCut, inner_radius, outer_radius, record_radius, hole_radius])).1,
   (rotation_count_and_radius_clamp cCut
      (by norm_num [cCut])
      (by norm_num [cCut, inner_radius, outer_radius, record_radius, hole_radius])).2
     4 2 (by norm_num)⟩

/-- C3: the claim requires extract_audio_from_stl to return an all-zero
waveform when the modulation range is zero. The source performs
(z - base_depth) / (amplitude_scale · groove_depth_mm) with no guard, so a
zero range divides by zero (ZeroDivisionError on untracked points, inf/NaN
otherwise) and extraction fails rather than returning zeros: here a single
stylus reading at height -1/4 makes the run fail. The spec's guard is the
clear intent, so this is a code bug. -/
theorem extraction_zero_range_fails :
    modulation_range eZeroRange = 0 ∧
    extract_audio_from_stl eZeroRange [some (-1/4)] = none := by
  constructor
  · norm_num [modulation_range, eZeroRange]
  · norm_num [extract_audio_from_stl, amplitudes, amplitudeOf, safeDiv,
      modulation_range, base_depth, eZeroRange]

/-- C4 counterexample: at the source's default amplitude_scale = 1.0 and
the in-range sample -1, the groove height relative to the top surface is
-groove_depth/2 - (-1)·groove_depth·1 = +groove_depth/2 = 1/4 > 0: the
groove breaches the surface. -/
theorem groove_breaches_surface :
    cBreach.amplitude_scale = 1 ∧ ((-1 : ℚ) ≤ -1 ∧ (-1 : ℚ) ≤ 1) ∧
    z_rel_top cBreach (-1) = 1/4 ∧ 0 < z_rel_top cBreach (-1) := by
  norm_num [cBreach, z_rel_top, z_center, z_modulation]

/-- C4 amended: with the code's mapping
z_rel = -groove_depth/2 - sample·groove_depth·amplitude_scale, the
no-breach bound holds only when amplitude_scale ≤ 1/2: then for every
sample in [-1, 1] the groove height relative to the top surface stays in
[-groove_depth·(1 + amplitude_scale), 0]; at the default amplitude_scale
1.0 a sample of -1 rises groove_depth/2 above the surface. -/
theorem groove_depth_bounds (c : RecordCfg) (s : ℚ)
    (hd : 0 ≤ c.groove_depth) (ha0 : 0 ≤ c.amplitude_scale)
    (ha : c.amplitude_scale ≤ 1/2) (hs1 : -1 ≤ s) (hs2 : s ≤ 1) :
    z_rel_top c s ≤ 0 ∧
    -(c.groove_depth * (1 + c.amplitude_scale)) ≤ z_rel_top c s := by
  unfold z_rel_top z_center z_modulation
  have hda : 0 ≤ c.groove_depth * c.amplitude_scale := mul_nonneg hd ha0
  constructor
  · nlinarith [mul_le_mul_of_nonneg_right hs1 hda,
      mul_le_mul_of_nonneg_left ha hd]
  · nlinarith [mul_le_mul_of_nonneg_right hs2 hda,
      mul_le_mul_of_nonneg_left ha hd]

/-- Witness for the amended C4 at amplitude scale 1/4 and sample -1/2. -/
theorem groove_depth_bounds_witness :
    z_rel_top cSafe (-1/2) ≤ 0 ∧
    -(cSafe.groove_depth * (1 + cSafe.amplitude_scale)) ≤ z_rel_top cSafe (-1/2) :=
  groove_depth_bounds cSafe (-1/2) (by norm_num [cSafe]) (by norm_num [cSafe])
    (by norm_num [cSafe]) (by norm_num) (by norm_num)

/-- C5: the dynamic-range compression stage leaves a sample unchanged when
its absolute value is at most the linear threshold, otherwise maps it to
sign(s) · (threshold + (|s| - threshold) / ratio); when the threshold is
nonnegative (it is 10^(dB/20) > 0 in the source) and the ratio positive,
the sign is preserved. -/
theorem compressor_characterization (s t ratio : ℚ) :
    (|s| ≤ t → compressSample t ratio s = s) ∧
    (t < |s| → compressSample t ratio s = pySign s * (t + (|s| - t) / ratio)) ∧
    (0 ≤ t → 0 < ratio → pySign (compressSample t ratio s) = pySign s) := by
  refine ⟨?_, ?_, ?_⟩
  · intro h
    unfold compressSample
    rw [if_neg (not_lt.mpr h)]
  · intro h
    unfold compressSample
    rw [if_pos h]
  · intro ht hr
    unfold compressSample
    by_cases h : t < |s|
    · rw [if_pos h]
      have hc : 0 < t + (|s| - t) / ratio := by
        have : 0 < (|s| - t) / ratio := div_pos (by linarith) hr
        linarith
      exact pySign_mul_pos s _ hc
    · rw [if_neg h]

/-- Witness for C5 at s = -3/4, threshold 1/2, ratio 2: the over-threshold
formula applies and the sign is preserved. -/
theorem compressor_characterization_witness :
    compressSample (1/2) 2 (-3/4 : ℚ) =
      pySign (-3/4 : ℚ) * (1/2 + (|(-3/4 : ℚ)| - 1/2) / 2) ∧
    pySign (compressSample (1/2) 2 (-3/4 : ℚ)) = pySign (-3/4 : ℚ) :=
  ⟨(compressor_characterization (-3/4) (1/2) 2).2.1 (by norm_num [abs_of_nonneg]),
   (compressor_characterization (-3/4) (1/2) 2).2.2 (by norm_num) (by norm_num)⟩

/-- C6: the final peak-normalization stage divides by the global maximum
absolute value, so on a nonempty buffer (numpy.max rejects an empty one): a
buffer with some nonzero sample normalizes to peak exactly 1, an all-zero
buffer is returned unchanged without raising, and the stage is idempotent
on its own output. -/
theorem normalization_characterization (l : List ℚ) (hl : l ≠ []) :
    ((∃ x ∈ l, x ≠ 0) → maxAbs (peak_normalize l) = 1) ∧
    ((∀ x ∈ l, x = 0) → peak_normalize l = l) ∧
    peak_normalize (peak_normalize l) = peak_normalize l := by
  refine ⟨?_, fun h => peak_normalize_all_zero h, peak_normalize_idem l⟩
  rintro ⟨x, hx, hx0⟩
  exact maxAbs_normalize_of_pos (lt_of_lt_of_le (abs_pos.mpr hx0) (le_maxAbs_of_mem hx))

/-- Witness for C6 on the buffer [1/2, 0]. -/
theorem normalization_characterization_witness :
    maxAbs (peak_normalize [(1/2 : ℚ), 0]) = 1 ∧
    peak_normalize (peak_normalize [(1/2 : ℚ), 0]) = peak_normalize [(1/2 : ℚ), 0] :=
  ⟨(normalization_characterization [(1/2 : ℚ), 0] (by simp)).1
     ⟨1/2, by simp, by norm_num⟩,
   (normalization_characterization [(1/2 : ℚ), 0] (by simp)).2.2⟩

/-- C7: for every valid generator and extractor configuration and RPM, both
spiral paths have non-decreasing theta (measured in turns, which preserves
order) and non-increasing radius over the sample index, and the radius
never falls below the hole radius. -/
theorem spiral_monotone_invariants (c : RecordCfg) (e : ExtractCfg) (rpm : ℚ)
    (hc : ValidRecordCfg c) (he : ValidExtractCfg e) :
    (∀ n i j : ℕ, i ≤ j → j < n →
      spiral_theta_turns c n i ≤ spiral_theta_turns c n j ∧
      spiral_r c n j ≤ spiral_r c n i ∧
      hole_radius c ≤ spiral_r c n j) ∧
    (∀ i j : ℕ, i ≤ j → j < (num_points e rpm).toNat →
      ext_theta_turns e rpm i ≤ ext_theta_turns e rpm j ∧
      ext_r e rpm j ≤ ext_r e rpm i ∧
      hole_radius_e e ≤ ext_r e rpm j) := by
  obtain ⟨hgw, hli, hlo, hgd, hio⟩ := hc
  obtain ⟨hp, hdep, hre⟩ := he
  constructor
  · intro n i j hij hjn
    unfold spiral_theta_turns spiral_r
    have hrot : (0 : ℚ) ≤ ((num_rotations c : ℤ) : ℚ) := by
      have h1 : 0 ≤ track_width c / c.groove_width := by
        apply div_nonneg _ hgw.le
        unfold track_width
        linarith
      have h2 : 0 ≤ num_rotations c := pyInt_nonneg h1
      exact_mod_cast h2
    refine ⟨linAt_mono hrot n hij, linAt_anti hio n hij, ?_⟩
    have h1 : inner_radius c ≤ linAt (outer_radius c) (inner_radius c) n j :=
      linAt_desc_lower hio hjn
    have h2 : hole_radius c ≤ inner_radius c := by
      unfold inner_radius
      linarith
    exact le_trans h2 h1
  · intro i j hij hjn
    unfold ext_theta_turns ext_r
    have hrot : (0 : ℚ) ≤ total_rotations e := by
      unfold total_rotations
      exact div_nonneg (by linarith) hp.le
    refine ⟨linAt_mono hrot _ hij, linAt_anti hre _ hij, ?_⟩
    have h1 : r_end e ≤ linAt (r_start e) (r_end e) (num_points e rpm).toNat j :=
      linAt_desc_lower hre hjn
    have h2 : hole_radius_e e ≤ r_end e := by
      unfold hole_radius_e r_end
      linarith
    exact le_trans h2 h1

/-- Witness for C7 at the representative profile pair at 45 RPM, sample
indices 1 ≤ 2 (generator, buffer of 4; extractor, its own point count). -/
theorem spiral_monotone_witness :
    (spiral_theta_turns cCut 4 1 ≤ spiral_theta_turns cCut 4 2 ∧
     spiral_r cCut 4 2 ≤ spiral_r cCut 4 1 ∧
     hole_radius cCut ≤ spiral_r cCut 4 2) ∧
    (ext_theta_turns eRead 45 1 ≤ ext_theta_turns eRead 45 2 ∧
     ext_r eRead 45 2 ≤ ext_r eRead 45 1 ∧
     hole_radius_e eRead ≤ ext_r eRead 45 2) :=
  ⟨(spiral_monotone_invariants cCut eRead 45
      (by norm_num [ValidRecordCfg, cCut, inner_radius, outer_radius,
        record_radius, hole_radius])
      (by norm_num [ValidExtractCfg, eRead, r_start, r_end])).1
     4 1 2 (by norm_num) (by norm_num),
   (spiral_monotone_invariants cCut eRead 45
      (by norm_num [ValidRecordCfg, cCut, inner_radius, outer_radius,
        record_radius, hole_radius])
      (by norm_num [ValidExtractCfg, eRead, r_start, r_end])).2
     1 2 (by norm_num)
     (by
       have h : num_points eRead 45 = 1117200 := by
         norm_num [num_points, pyInt, total_duration, total_rotations,
           seconds_per_rotation, r_start, r_end, eRead]
       rw [h]
       norm_num)⟩

/-- C8: the comparator returns the similarity score 0.0 when either input
waveform is empty, without raising and without entering the resampling
branch. -/
theorem compare_degenerate (a b : List ℚ) (h : a = [] ∨ b = []) :
    compare_audio_signals a b = CompareOutcome.degenerate 0 := by
  unfold compare_audio_signals
  have hc : b.length = 0 ∨ a.length = 0 := by
    rcases h with h | h
    · exact Or.inr (by simp [h])
    · exact Or.inl (by simp [h])
  rw [if_pos hc]

/-- Witness for C8 at an empty first input. -/
theorem compare_degenerate_witness :
    compare_audio_signals [] [(1 : ℚ)] = CompareOutcome.degenerate 0 :=
  compare_degenerate [] [(1 : ℚ)] (Or.inl rfl)

/-- C9: the generated record mesh is fully determined by the sample buffer
and the configuration alone — the playback RPM and the sample rate passed
by the application shell are not inputs of the geometry builder, so any two
choices of them produce the identical mesh — and the spiral rotation count
is int(track_width / groove_width), a function of disc geometry only. -/
theorem mesh_independent_of_playback :
    ∀ (samples : List ℚ) (c : RecordCfg) (sr₁ rpm₁ sr₂ rpm₂ : ℚ),
      create_record_mesh samples sr₁ rpm₁ c = create_record_mesh samples sr₂ rpm₂ c ∧
      num_rotations c = pyInt (track_width c / c.groove_width) :=
  fun _ _ _ _ _ _ => ⟨rfl, rfl⟩

/-- C10: whenever extract_audio_from_stl succeeds, its result is
peak-normalized: every returned sample lies in [-1, 1], and unless all
extracted samples are zero the maximum absolute amplitude is exactly 1. -/
theorem extraction_normalized (e : ExtractCfg) (readings : List (Option ℚ))
    (out : List ℚ) (h : extract_audio_from_stl e readings = some out) :
    (∀ x ∈ out, -1 ≤ x ∧ x ≤ 1) ∧ ((∃ x ∈ out, x ≠ 0) → maxAbs out = 1) := by
  unfold extract_audio_from_stl at h
  by_cases hr : readings.isEmpty
  · rw [if_pos hr] at h
    cases h
  · rw [if_neg hr] at h
    obtain ⟨amps, _, hout⟩ := Option.map_eq_some'.mp h
    subst hout
    constructor
    · intro x hx
      exact abs_le.mp (peak_normalize_abs_le_one amps x hx)
    · rintro ⟨x, hx, hx0⟩
      have hpos : 0 < maxAbs (peak_normalize amps) :=
        lt_of_lt_of_le (abs_pos.mpr hx0) (le_maxAbs_of_mem hx)
      rcases maxAbs_normalize_dichotomy amps with h0 | h1
      · rw [h0] at hpos
        exact absurd hpos (lt_irrefl 0)
      · exact h1

/-- Witness for C10: two stylus readings at heights -1/2 and 0 against the
unit-range configuration extract to the already-normalized buffer [1/2, 1]. -/
theorem extraction_normalized_witness :
    (∀ x ∈ [(1/2 : ℚ), 1], -1 ≤ x ∧ x ≤ 1) ∧
    ((∃ x ∈ [(1/2 : ℚ), 1], x ≠ 0) → maxAbs [(1/2 : ℚ), 1] = 1) :=
  extraction_normalized eUnit [some (-1/2), some 0] [1/2, 1]
    (by
      have hamps : amplitudes eUnit [some (-1/2), some 0] = some [1/2, 1] := by
        norm_num [amplitudes, amplitudeOf, safeDiv, modulation_range,
          base_depth, eUnit]
      have hnorm : peak_normalize [(1/2 : ℚ), 1] = [1/2, 1] := by
        norm_num [peak_normalize, maxAbs, abs_of_nonneg, sup_eq_max, max_def]
      unfold extract_audio_from_stl
      rw [if_neg (by simp), hamps, Option.map_some', hnorm])
